import Mathlib

/-!
Verification development for the meridian repository (VS Code "AIDev" agentic
assistant).  The definitions below are a shallow embedding of the TypeScript
sources, chiefly:

* `packages/core/src/agent/loop.ts`   — `runAgentLoop`
* `packages/core/src/agent/types.ts`  — `AgentConfig`, `AgentAction`
* `packages/core/src/types/models.ts` — `ChatMessage`, `ToolCall`, `ToolResult`,
  `ModelResponse`, `ToolDefinition`
* the agent system-prompt builder (`buildSystemPrompt`)
* the dead-code tool's static pass and model-review pass
  (`packages/core/src/tools/lint/index.ts`, third module in the file)
* the lint tool's model-output parser (`LintTool.runModelAnalysis`)
* the comments tool's model-response parser (`parseModelResponse` in
  `packages/core/src/tools/dead-code/index.ts`)
* the git conflict-marker parser (`parseConflictMarkers`)

The async-generator loop is embedded as a total function: the provider is a
function from the current message list to `Except String ModelResponse`
(an `Except.error` models `sendRequest` throwing/rejecting), and the host is a
function from the suspension index and the yielded action to the optional
`ToolResult` it resumes the generator with.  The run's outcome is the full
trace of yielded actions together with the final message history and the
number of model requests issued.  Exceptions never appear in the result type:
the source catches every provider failure, and the embedding reflects that by
being a total function into `RunResult`.
-/

namespace Meridian

/-- From `types/models.ts`: a tool invocation requested by the model.  The
untyped `arguments: Record<string, unknown>` bag is rendered as an association
list of strings; the agent loop only passes it through unchanged. -/
structure ToolCall where
  id : String
  name : String
  arguments : List (String × String)
deriving DecidableEq, Repr

/-- From `types/models.ts`: result of executing a tool call, fed back to the
model (the `isError` flag is not consulted by the loop and is omitted). -/
structure ToolResult where
  toolCallId : String
  content : String
deriving DecidableEq, Repr

/-- From `types/models.ts`: provider-reported token usage. -/
structure Usage where
  inputTokens : Nat
  outputTokens : Nat
deriving DecidableEq, Repr

/-- From `types/models.ts`: response from a model request.  The resolved-model
identity and stop reason are omitted: `runAgentLoop` never reads them. -/
structure ModelResponse where
  content : String
  usage : Option Usage
  toolCalls : Option (List ToolCall)
deriving DecidableEq, Repr

/-- From `types/models.ts`: a message in a model conversation.  The four
roles of the TypeScript union become constructors; `toolCalls` is present
exactly on assistant messages and `toolCallId` exactly on tool results,
matching how `loop.ts` actually constructs messages. -/
inductive ChatMessage where
  | system (content : String)
  | user (content : String)
  | assistant (content : String) (toolCalls : List ToolCall)
  | tool_result (content : String) (toolCallId : String)
deriving DecidableEq, Repr

/-- From `types/models.ts`: a tool definition exposed to the model (the JSON
`inputSchema` is omitted; the loop and prompt builder use only name and
description). -/
structure ToolDefinition where
  name : String
  description : String
deriving DecidableEq, Repr

/-- From `agent/types.ts`: immutable per-run configuration.  `maxTokenBudget`
is an `Int` so that the source's `maxTokenBudget - 100` threshold is faithful
even for budgets below the safety margin. -/
structure AgentConfig where
  maxTurns : Nat
  maxTokenBudget : Int
  systemPrompt : String
  availableTools : List ToolDefinition
deriving DecidableEq, Repr

/-- From `agent/types.ts`: the discriminated union of actions yielded by the
agent loop. -/
inductive AgentAction where
  | tool_call (toolId : String) (callId : String) (args : List (String × String))
  | confirmation_required (toolId : String) (callId : String)
      (args : List (String × String)) (description : String)
  | response (content : String) (totalInputTokens totalOutputTokens : Nat)
  | error (message : String)
deriving DecidableEq, Repr

/-- Modelled from the spec: invocation mode of a registered tool
(`ToolInvocationMode` lives in `types/analysis.ts`, which is not under
`src/`); §3 and §4.2 of the spec describe it as a two-valued flag,
`autonomous` vs confirmation-gated. -/
inductive Invocation where
  | autonomous
  | confirmationRequired
deriving DecidableEq, Repr

/-- Modelled from the spec: a Tool Registry entry (`ToolRegistryEntry` in
`tools/index.ts`, which is not under `src/`).  Per spec §3/§4.2 an entry is
static data: id, display name, description, invocation mode, and the
chat/command routing key (`types/models.ts` notes tool-call names match
`ToolRegistryEntry.chatCommand`). -/
structure ToolRegistryEntry where
  id : String
  name : String
  description : String
  invocation : Invocation
  chatCommand : String
deriving DecidableEq, Repr

/-- Modelled from the spec: `getToolByCommand(name) → entry | undefined`
(spec §4.2) — a pure lookup of the routing key in the static registry table. -/
def getToolByCommand (registry : List ToolRegistryEntry) (name : String) :
    Option ToolRegistryEntry :=
  registry.find? (fun e => e.chatCommand == name)

/-- Modelled from the spec: the static registry table (`TOOL_REGISTRY` in
`tools/index.ts`, not under `src/`).  Spec §2/§4.2: the five analysis tools,
with read-only analysis tools autonomous and the destructive commit tool
confirmation-gated.  Used only to instantiate concrete runs. -/
def TOOL_REGISTRY : List ToolRegistryEntry :=
  [ { id := "dead-code", name := "Dead Code Discovery",
      description := "Find unused exports, unreachable code, unused files, and dead variables.",
      invocation := Invocation.autonomous, chatCommand := "dead-code" },
    { id := "lint", name := "Lint & Best Practice",
      description := "Run linters and model-driven analysis for code smells and best practices.",
      invocation := Invocation.autonomous, chatCommand := "lint" },
    { id := "comments", name := "Comment Pruning",
      description := "Find stale, noisy, or dead comments.",
      invocation := Invocation.autonomous, chatCommand := "comments" },
    { id := "commit", name := "Auto-Commit",
      description := "Stage changes and propose a commit message.",
      invocation := Invocation.confirmationRequired, chatCommand := "commit" },
    { id := "tldr", name := "PR Review TLDR",
      description := "Summarize a candidate branch for review.",
      invocation := Invocation.autonomous, chatCommand := "tldr" } ]

/-! ## System prompt (`agent/system-prompt.ts`) -/

/-- JavaScript's `Array.prototype.join(sep)` on a list of strings. -/
def joinWith (sep : String) : List String → String
  | [] => ""
  | [x] => x
  | x :: y :: xs => x ++ sep ++ joinWith sep (y :: xs)

/-- From `agent/system-prompt.ts`: the fixed built-in persona text. -/
def BASE_SYSTEM_PROMPT : String :=
  joinWith "\n"
    [ "You are AIDev, an AI-powered developer toolkit assistant.",
      "You help developers with code analysis, commit workflows, and change summarization.",
      "",
      "You have access to the following tools. Use them when they would help answer the user's question.",
      "For read-only analysis tools, invoke them directly.",
      "For destructive or modifying tools, explain what you plan to do and wait for confirmation.",
      "" ]

/-- The fixed safety-constraints block pushed at the end of every system
prompt (`system-prompt.ts` lines 37–40). -/
def constraintLines : List String :=
  [ "Constraints:",
    "- All destructive actions (commits, comment pruning) must be proposed for user approval.",
    "- Never auto-apply file modifications or git operations.",
    "- Be concise and technical. Prioritize clarity." ]

/-- The `parts` array accumulated by `buildSystemPrompt`: custom prompt (if
non-empty, followed by a blank line) or the built-in persona, then the tool
list (if any), then the fixed constraints block. -/
def buildSystemPromptParts (config : AgentConfig) : List String :=
  (if config.systemPrompt ≠ "" then [config.systemPrompt, ""] else [BASE_SYSTEM_PROMPT]) ++
  (if config.availableTools.length > 0 then
    "Available tools:" ::
      config.availableTools.map (fun t => "- " ++ t.name ++ ": " ++ t.description) ++ [""]
   else []) ++
  constraintLines

/-- From `agent/system-prompt.ts`: `buildSystemPrompt(config)` — the parts
array joined with newlines. -/
def buildSystemPrompt (config : AgentConfig) : String :=
  joinWith "\n" (buildSystemPromptParts config)

/-! ## The agent loop (`agent/loop.ts`) -/

/-- From `loop.ts`: minimum remaining token budget to allow another request. -/
def MIN_TOKEN_BUDGET_THRESHOLD : Int := 100

/-- Content of the synthetic `tool_result` for an unknown tool
(`loop.ts` line 108). -/
def unknownToolContent (config : AgentConfig) (name : String) : String :=
  "Unknown tool: \"" ++ name ++ "\". Available tools: " ++
    joinWith ", " (config.availableTools.map (fun t => t.name))

/-- Content of the synthetic `tool_result` when the host supplies no result
(`loop.ts` line 144). -/
def skippedContent : String :=
  "Tool execution was skipped or denied by the user."

/-- Budget-exhaustion terminal error message (`loop.ts` line 54). -/
def budgetMessage (tokensUsed : Nat) (maxTokenBudget : Int) : String :=
  "Token budget exhausted (" ++ toString tokensUsed ++ " / " ++
    toString maxTokenBudget ++ " tokens used)."

/-- Turn-limit terminal error message (`loop.ts` line 156). -/
def turnLimitMessage (maxTurns : Nat) : String :=
  "Agent loop reached maximum turns (" ++ toString maxTurns ++
    "). Stopping to prevent runaway execution."

/-- The action built for a known registry entry (`loop.ts` lines 115–129):
`tool_call` for autonomous tools, `confirmation_required` (with the
human-readable description) otherwise. -/
def actionFor (entry : ToolRegistryEntry) (call : ToolCall) : AgentAction :=
  match entry.invocation with
  | Invocation.autonomous =>
      AgentAction.tool_call entry.id call.id call.arguments
  | Invocation.confirmationRequired =>
      AgentAction.confirmation_required entry.id call.id call.arguments
        (entry.name ++ ": " ++ entry.description)

/-- A host strategy: given the index of the suspension point (how many
tool-related actions have been yielded so far this run) and the yielded
action, the optional `ToolResult` the host resumes the generator with. -/
abbrev Host := Nat → AgentAction → Option ToolResult

/-- A provider strategy: `sendRequest` as a function of the message list sent;
`Except.error` models a thrown/rejected request. -/
abbrev Provider := List ChatMessage → Except String ModelResponse

/-- State threaded through the per-response tool-call processing loop. -/
structure ProcState where
  actions : List AgentAction
  messages : List ChatMessage
  yieldCount : Nat
deriving DecidableEq, Repr

/-- From `loop.ts` lines 98–148: process one model response's batch of tool
calls in order.  Unknown tools append a synthetic `tool_result` and yield no
action; known tools yield `tool_call`/`confirmation_required`, then append the
host-supplied result (correlated by the id the host put in it) or, if the host
supplied nothing, a synthetic skipped/denied `tool_result` correlated to the
call's own id. -/
def processToolCalls (registry : List ToolRegistryEntry) (config : AgentConfig)
    (host : Host) :
    List ToolCall → List ChatMessage → Nat → ProcState
  | [], messages, yieldCount => ⟨[], messages, yieldCount⟩
  | call :: rest, messages, yieldCount =>
    match getToolByCommand registry call.name with
    | none =>
        processToolCalls registry config host rest
          (messages ++ [ChatMessage.tool_result (unknownToolContent config call.name) call.id])
          yieldCount
    | some entry =>
        let action := actionFor entry call
        let resultMsg : ChatMessage :=
          match host yieldCount action with
          | some tr => ChatMessage.tool_result tr.content tr.toolCallId
          | none => ChatMessage.tool_result skippedContent call.id
        let s := processToolCalls registry config host rest
          (messages ++ [resultMsg]) (yieldCount + 1)
        ⟨action :: s.actions, s.messages, s.yieldCount⟩

/-- Outcome of a run: the trace of yielded actions, the final message history,
and the number of model requests issued. -/
structure RunResult where
  actions : List AgentAction
  finalMessages : List ChatMessage
  requests : Nat
deriving DecidableEq, Repr

/-- From `loop.ts` lines 48–158: the agent loop proper, recursing on
`turnsRemaining`.  Each iteration: budget check, model request (a failure is
caught and becomes a terminal error), usage accrual, then either a terminal
`response` (no tool calls) or assistant-message append, tool-call processing
and a decremented recursive continuation.  Exiting with `turnsRemaining = 0`
yields the turn-limit error. -/
def loopIter (provider : Provider) (registry : List ToolRegistryEntry)
    (config : AgentConfig) (host : Host) :
    Nat → List ChatMessage → Nat → Nat → Nat → Nat → RunResult
  | 0, messages, _, _, _, requests =>
      ⟨[AgentAction.error (turnLimitMessage config.maxTurns)], messages, requests⟩
  | turnsRemaining + 1, messages, totalInputTokens, totalOutputTokens, yieldCount, requests =>
      let tokensUsed := totalInputTokens + totalOutputTokens
      if (tokensUsed : Int) ≥ config.maxTokenBudget - MIN_TOKEN_BUDGET_THRESHOLD then
        ⟨[AgentAction.error (budgetMessage tokensUsed config.maxTokenBudget)], messages, requests⟩
      else
        match provider messages with
        | Except.error e =>
            ⟨[AgentAction.error ("Model request failed: " ++ e)], messages, requests + 1⟩
        | Except.ok response =>
            let totalIn := totalInputTokens +
              (match response.usage with | some u => u.inputTokens | none => 0)
            let totalOut := totalOutputTokens +
              (match response.usage with | some u => u.outputTokens | none => 0)
            match response.toolCalls with
            | none =>
                ⟨[AgentAction.response response.content totalIn totalOut], messages, requests + 1⟩
            | some [] =>
                ⟨[AgentAction.response response.content totalIn totalOut], messages, requests + 1⟩
            | some (call :: calls) =>
                let messages1 := messages ++
                  [ChatMessage.assistant response.content (call :: calls)]
                let s := processToolCalls registry config host (call :: calls)
                  messages1 yieldCount
                let r := loopIter provider registry config host turnsRemaining
                  s.messages totalIn totalOut s.yieldCount (requests + 1)
                ⟨s.actions ++ r.actions, r.finalMessages, r.requests⟩

/-- From `loop.ts` lines 30–45: the initial message sequence — synthesized
system prompt, replayed history, then the new user message. -/
def initialMessages (config : AgentConfig) (history : List ChatMessage)
    (userMessage : String) : List ChatMessage :=
  ChatMessage.system (buildSystemPrompt config) :: history ++ [ChatMessage.user userMessage]

/-- From `loop.ts`: `runAgentLoop(provider, config, history, userMessage)`.
The registry (imported statically in the source) and the host (the generator's
consumer) are explicit parameters here. -/
def runAgentLoop (provider : Provider) (registry : List ToolRegistryEntry)
    (config : AgentConfig) (host : Host) (history : List ChatMessage)
    (userMessage : String) : RunResult :=
  loopIter provider registry config host config.maxTurns
    (initialMessages config history userMessage) 0 0 0 0

/-! ## Findings (`types/common.ts`, `types/analysis.ts`) -/

/-- From `types/common.ts`: a source-code location.  Lines are `Int` because
the comments-tool parser stores whatever `parseInt` produced, which JavaScript
does not clamp to positive values.  End column is never set by the embedded
tools and is omitted. -/
structure CodeLocation where
  filePath : String
  startLine : Int
  endLine : Int
  startColumn : Option Int
deriving DecidableEq, Repr

/-- From `types/analysis.ts`: a suggested code fix attached to a finding. -/
structure SuggestedFix where
  description : String
  replacement : String
  location : CodeLocation
deriving DecidableEq, Repr

/-- From `types/analysis.ts`: the uniform finding record.  Severity is kept as
the source's string literal (`error`/`warning`/`info`/`hint`); metadata is an
association list of strings.  The `id`/`toolId` fields that `BaseTool
.createFinding` stamps on (in `tools/base-tool.ts`, not under `src/`) are
omitted: every claim here concerns the fields the tools supply. -/
structure Finding where
  title : String
  description : String
  location : CodeLocation
  severity : String
  suggestedFix : Option SuggestedFix
  metadata : List (String × String)
deriving DecidableEq, Repr

/-! ## JavaScript string primitives

The TypeScript tools use `split`, `trim`, `toUpperCase`, `startsWith`,
`slice` and `parseInt`.  These are embedded here as structurally recursive
functions on the string's character list, modelling the JavaScript
semantics directly (the separators used by the sources are all single
characters). -/

/-- Split a character list at every occurrence of `c`; `acc` holds the
(reversed) characters of the current field. -/
def jsSplitAux (c : Char) : List Char → List Char → List String
  | [], acc => [String.mk acc.reverse]
  | x :: xs, acc =>
    if x == c then String.mk acc.reverse :: jsSplitAux c xs []
    else jsSplitAux c xs (x :: acc)

/-- JavaScript's `s.split(c)` for a one-character separator: the list of
fields between occurrences of `c` (empty fields preserved, `[""]` for the
empty string). -/
def jsSplit (c : Char) (s : String) : List String :=
  jsSplitAux c s.data []

/-- An ASCII whitespace character (the whitespace the embedded protocol
strings can contain). -/
def isJsWhitespace (ch : Char) : Bool :=
  ch == ' ' || ch == '\t' || ch == '\n' || ch == '\r'

/-- JavaScript's `s.trim()`: strip leading and trailing whitespace. -/
def jsTrim (s : String) : String :=
  String.mk (((s.data.dropWhile isJsWhitespace).reverse.dropWhile isJsWhitespace).reverse)

/-- JavaScript's `s.toUpperCase()` (ASCII). -/
def jsToUpper (s : String) : String :=
  String.mk (s.data.map Char.toUpper)

/-- Whether `pre` is a prefix of `l`. -/
def listPrefixOf : List Char → List Char → Bool
  | [], _ => true
  | _ :: _, [] => false
  | a :: as, b :: bs => a == b && listPrefixOf as bs

/-- JavaScript's `s.startsWith(pre)`. -/
def jsStartsWith (s pre : String) : Bool :=
  listPrefixOf pre.data s.data

/-- JavaScript's `s.slice(n)` for a non-negative start index. -/
def jsDrop (s : String) (n : Nat) : String :=
  String.mk (s.data.drop n)

/-- Decimal value of an all-digit character list. -/
def digitsVal (cs : List Char) : Nat :=
  cs.foldl (fun a c => a * 10 + (c.toNat - 48)) 0

/-! ## Dead-code tool, static pass
(`tools/lint/index.ts`, third module: `DeadCodeTool.run` lines 509–544) -/

/-- A word character in the sense of the JavaScript regex class `\w`:
ASCII letters, digits, and underscore. -/
def isWordChar (c : Char) : Bool :=
  c.isAlphanum || c == '_'

/-- Maximal runs of word characters in a string, in order. -/
def wordTokensAux : List Char → List Char → List String
  | [], acc => if acc.isEmpty then [] else [String.mk acc.reverse]
  | c :: cs, acc =>
    if isWordChar c then wordTokensAux cs (c :: acc)
    else if acc.isEmpty then wordTokensAux cs []
    else String.mk acc.reverse :: wordTokensAux cs []

/-- Maximal word-character runs of a string. -/
def wordTokens (s : String) : List String :=
  wordTokensAux s.toList []

/-- Number of whole-word occurrences of `name` in `corpus`.  This models
`(corpus.match(new RegExp("\\b" + escapeRegex(name) + "\\b", "g")) ?? []).length`
from `DeadCodeTool.run`: for a name made of word characters (every extracted
export name is a `\w+` capture, on which `escapeRegex` is the identity), the
pattern `\bname\b` matches exactly at the maximal word-character runs equal to
`name`. -/
def countWordOccurrences (name : String) (corpus : String) : Nat :=
  (wordTokens corpus).count name

/-- From `tools/lint/index.ts` (third module): an extracted export.  The
`kind` union (`function`/`class`/`variable`/`type`/`interface`/`enum`/
`default`) is kept as a string. -/
structure ExportInfo where
  name : String
  line : Nat
  kind : String
deriving DecidableEq, Repr

/-- The finding `DeadCodeTool.run` pushes for a potentially dead export
(lines 525–541). -/
def mkUnusedFinding (filePath : String) (e : ExportInfo) : Finding :=
  { title := "Unused export: " ++ e.name,
    description := "Exported " ++ e.kind ++ " \"" ++ e.name ++
      "\" appears to be unused across the scanned files.",
    location := { filePath := filePath, startLine := (e.line : Int),
                  endLine := (e.line : Int), startColumn := none },
    severity := "warning",
    suggestedFix := some
      { description := "Remove unused " ++ e.kind ++ " or its export",
        replacement := "",
        location := { filePath := filePath, startLine := (e.line : Int),
                      endLine := (e.line : Int), startColumn := none } },
    metadata := [] }

/-- From `DeadCodeTool.run` lines 509–544: the static pass.  `allExports`
is the per-file extraction result (the map built in lines 484–507) and
`fileContents` the scanned files' contents; the corpus is their
newline-join.  For each extracted export, default exports are skipped, and a
finding is pushed exactly when the name's whole-word occurrence count across
the corpus is at most 1. -/
def deadCodeStaticFindings (allExports : List (String × List ExportInfo))
    (fileContents : List String) : List Finding :=
  let allContent := joinWith "\n" fileContents
  allExports.flatMap (fun p =>
    p.2.filterMap (fun e =>
      if e.kind == "default" then none
      else if countWordOccurrences e.name allContent ≤ 1 then
        some (mkUnusedFinding p.1 e)
      else none))

/-! ## Dead-code tool, model review pass
(`DeadCodeTool.modelReview`, lines 558–633) -/

/-- The key under which `modelReview` indexes a finding
(`${filePath}:${startLine}`). -/
def findingKey (f : Finding) : String :=
  f.location.filePath ++ ":" ++ toString f.location.startLine

/-- From `modelReview` lines 610–618: collect the dismissal keys — for each
response line starting with `DISMISS|`, the second pipe-separated field,
trimmed.  (The source accumulates them in a `Set`; only membership is ever
consulted, so a list is an equivalent rendering.) -/
def parseDismissals (content : String) : List String :=
  (jsSplit '\n' content).foldl
    (fun acc line =>
      if jsStartsWith line "DISMISS|" then
        let parts := jsSplit '|' line
        if parts.length ≥ 2 then acc ++ [jsTrim (parts.getD 1 "")] else acc
      else acc)
    []

/-- The note appended to a dismissed finding's description (line 625). -/
def dismissNote : String := " (Model suggests this may be a false positive.)"

/-- From `modelReview` lines 621–627: a dismissed finding is downgraded to
severity `hint` with the explanatory note appended; others are untouched. -/
def applyDismissals (dismissals : List String) (f : Finding) : Finding :=
  if dismissals.contains (findingKey f) then
    { f with severity := "hint", description := f.description ++ dismissNote }
  else f

/-- From `DeadCodeTool.run` lines 546–556 and `modelReview`: the whole
review pass.  `response` is the provider's reply (`Except.error` models
`sendRequest` throwing, which the source swallows).  Returns the static
findings after the in-place downgrade pass, together with the extra findings
`modelReview` returns for `run` to push (always `[]` — line 632). -/
def deadCodeModelReview (response : Except String String)
    (staticFindings : List Finding) : List Finding × List Finding :=
  match response with
  | Except.error _ => (staticFindings, [])
  | Except.ok content =>
      (staticFindings.map (applyDismissals (parseDismissals content)), [])

/-! ## Lint tool, model-output parser
(`LintTool.runModelAnalysis`, `tools/lint/index.ts` lines 319–341) -/

/-- One line of the lint model-review protocol.  Models the regex
`^(ISSUE|SUGGESTION)\|([^\x7c]+)\|(\d+)\|(.+)$`: the line must be the type
tag, a non-empty pipe-free file path, a non-empty all-digits line number and a
non-empty description (which may itself contain pipes), separated by pipes.
Non-matching lines yield `none` (the source's `continue`). -/
def lintLineFinding (line : String) : Option Finding :=
  match jsSplit '|' line with
  | ty :: filePath :: lineStr :: rest =>
    let description := joinWith "|" rest
    if (ty = "ISSUE" ∨ ty = "SUGGESTION") ∧ filePath ≠ "" ∧
        lineStr ≠ "" ∧ lineStr.data.all Char.isDigit ∧
        rest ≠ [] ∧ description ≠ "" then
      let n : Int := (digitsVal lineStr.data : Nat)
      some
        { title := if ty = "SUGGESTION" then "Best practice suggestion"
                   else "Code smell detected",
          description := jsTrim description,
          location := { filePath := jsTrim filePath, startLine := n, endLine := n,
                        startColumn := none },
          severity := if ty = "ISSUE" then "warning" else "info",
          suggestedFix := none,
          metadata := [("source", "model")] }
    else none
  | _ => none

/-- From `runModelAnalysis` lines 320–338: parse the model response into
findings, one per protocol-matching line. -/
def parseLintModelOutput (content : String) : List Finding :=
  (jsSplit '\n' content).filterMap lintLineFinding

/-! ## Comments tool, model-response parser
(`parseModelResponse`, `tools/dead-code/index.ts` lines 330–368) -/

/-- Leading-digits prefix of a character list, if any. -/
def digitsPrefixToNat (cs : List Char) : Option Nat :=
  let ds := cs.takeWhile Char.isDigit
  if ds.isEmpty then none
  else some (ds.foldl (fun a c => a * 10 + (c.toNat - 48)) 0)

/-- JavaScript's `parseInt(s, 10)`: skip leading whitespace, accept an
optional sign, then read leading decimal digits; `none` models `NaN` (no
digits found). -/
def jsParseInt (s : String) : Option Int :=
  let chars := s.data.dropWhile isJsWhitespace
  match chars with
  | '-' :: rest => (digitsPrefixToNat rest).map (fun n => -(n : Int))
  | '+' :: rest => (digitsPrefixToNat rest).map (fun n => (n : Int))
  | _ => (digitsPrefixToNat chars).map (fun n => (n : Int))

/-- One line of the comments-tool action protocol
(`ACTION|LINE_START|LINE_END|REASON|REPLACEMENT...`).  Lines with fewer than
four pipe-separated fields, an action other than REMOVE/REWRITE (after
trim + uppercase), or a NaN line number are skipped (`none`). -/
def commentActionFinding (filePath : String) (line : String) : Option Finding :=
  let parts := jsSplit '|' line
  if parts.length < 4 then none
  else
    match parts with
    | action :: startStr :: endStr :: reason :: replacementParts =>
      let trimmedAction := jsToUpper (jsTrim action)
      if trimmedAction ≠ "REMOVE" ∧ trimmedAction ≠ "REWRITE" then none
      else
        match jsParseInt (jsTrim startStr), jsParseInt (jsTrim endStr) with
        | some startLine, some endLine =>
          let loc : CodeLocation :=
            { filePath := filePath, startLine := startLine, endLine := endLine,
              startColumn := none }
          some
            { title := if trimmedAction = "REMOVE" then "Remove comment"
                       else "Rewrite comment",
              description := jsTrim reason,
              location := loc,
              severity := "info",
              suggestedFix :=
                if trimmedAction = "REWRITE" ∧ replacementParts ≠ [] then
                  some { description := "Suggested rewrite",
                         replacement :=
                           jsTrim (joinWith "|" replacementParts),
                         location := loc }
                else none,
              metadata := [] }
        | _, _ => none
    | _ => none

/-- From `parseModelResponse` lines 330–368: parse the comments-tool model
response, skipping every line that is not a well-formed REMOVE/REWRITE
record. -/
def parseModelResponse (content : String) (filePath : String) : List Finding :=
  (jsSplit '\n' content).filterMap (commentActionFinding filePath)

/-! ## Conflict-marker parser (`git/conflicts.ts`: `parseConflictMarkers`) -/

/-- From `git/conflicts.ts`: a parsed conflict hunk. -/
structure ConflictHunk where
  startLine : Nat
  endLine : Nat
  ours : String
  theirs : String
  oursLabel : String
  theirsLabel : String
deriving DecidableEq, Repr

/-- Mutable state of `parseOneHunk`'s scan over the lines after the `<<<<<<<`
marker. -/
structure HunkScanState where
  separatorFound : Bool
  ours : List String
  theirs : List String
  endLine : Nat
  theirsLabel : String
deriving DecidableEq, Repr

/-- The `for` loop of `parseOneHunk` (lines 158–177): `rest` is the slice of
`lines` from position `i` on.  Encountering `=======` before the separator is
found sets the flag; `>>>>>>>` after it records the label and 1-based end
line and breaks; otherwise the line accrues to ours/theirs. -/
def hunkScan : List String → Nat → HunkScanState → HunkScanState
  | [], _, st => st
  | line :: rest, i, st =>
    if ¬ st.separatorFound ∧ jsStartsWith line "=======" then
      hunkScan rest (i + 1) { st with separatorFound := true }
    else if st.separatorFound ∧ jsStartsWith line ">>>>>>>" then
      { st with endLine := i + 1, theirsLabel := jsTrim (jsDrop line 7) }
    else if st.separatorFound then
      hunkScan rest (i + 1) { st with theirs := st.theirs ++ [line] }
    else
      hunkScan rest (i + 1) { st with ours := st.ours ++ [line] }

/-- From `parseOneHunk` (lines 148–189): parse one hunk whose `<<<<<<<`
marker sits at (0-based) `startIndex`; `none` when no `=======` separator is
found before the lines run out. -/
def parseOneHunk (lines : List String) (startIndex : Nat) : Option ConflictHunk :=
  let oursLabel := jsTrim (jsDrop (lines.getD startIndex "") 7)
  let startLine := startIndex + 1
  let r := hunkScan (lines.drop (startIndex + 1)) (startIndex + 1)
    { separatorFound := false, ours := [], theirs := [],
      endLine := startLine, theirsLabel := "" }
  if r.separatorFound then
    some { startLine := startLine, endLine := r.endLine,
           ours := joinWith "\n" r.ours,
           theirs := joinWith "\n" r.theirs,
           oursLabel := oursLabel, theirsLabel := r.theirsLabel }
  else none

/-- The scan position only moves forward: the end line of a parsed hunk lies
strictly beyond its start index (the source relies on this to advance `i`). -/
theorem hunkScan_endLine_ge (rest : List String) (i : Nat) (st : HunkScanState)
    (k : Nat) (hst : k ≤ st.endLine) (hi : k ≤ i + 1) :
    k ≤ (hunkScan rest i st).endLine := by
  induction rest generalizing i st with
  | nil => simpa [hunkScan] using hst
  | cons line rest ih =>
    simp only [hunkScan]
    split
    · exact ih (i + 1) _ hst (by omega)
    · split
      · simpa using hi
      · split
        · exact ih (i + 1) _ hst (by omega)
        · exact ih (i + 1) _ hst (by omega)

/-- A successfully parsed hunk ends strictly after its starting index. -/
theorem parseOneHunk_lt (lines : List String) (startIndex : Nat)
    (h : ConflictHunk) (hec : parseOneHunk lines startIndex = some h) :
    startIndex < h.endLine := by
  simp only [parseOneHunk] at hec
  split at hec
  · cases hec
    simpa using hunkScan_endLine_ge (lines.drop (startIndex + 1)) (startIndex + 1)
      _ (startIndex + 1) (le_refl _) (by omega)
  · cases hec

/-- The `while` loop of `parseConflictMarkers` (lines 125–140): scan for
`<<<<<<<` lines; a parsed hunk is collected and the cursor jumps past its
`>>>>>>>` line, a failed parse (no separator) just advances the cursor. -/
def conflictScan (lines : List String) (i : Nat) : List ConflictHunk :=
  if h1 : i < lines.length then
    if jsStartsWith (lines.getD i "") "<<<<<<<" then
      match h2 : parseOneHunk lines i with
      | some hunk => hunk :: conflictScan lines hunk.endLine
      | none => conflictScan lines (i + 1)
    else conflictScan lines (i + 1)
  else []
termination_by lines.length - i
decreasing_by
  · have := parseOneHunk_lt lines i hunk h2
    omega
  · omega
  · omega

/-- From `parseConflictMarkers` (lines 121–143): split the content into lines
and scan from the top. -/
def parseConflictMarkers (content : String) : List ConflictHunk :=
  conflictScan (jsSplit '\n' content) 0

/-! ## Observation helpers for the loop theorems -/

/-- Whether an action is a host-facing tool action
(`tool_call` or `confirmation_required`). -/
def AgentAction.isToolAction : AgentAction → Bool
  | AgentAction.tool_call _ _ _ => true
  | AgentAction.confirmation_required _ _ _ _ => true
  | _ => false

/-- Whether an action is a terminal `response`. -/
def AgentAction.isResponseAction : AgentAction → Bool
  | AgentAction.response _ _ _ => true
  | _ => false

/-- The correlation id carried by a tool-related action
(empty for terminal actions, which are never shown to the host as pending
calls). -/
def AgentAction.callIdOf : AgentAction → String
  | AgentAction.tool_call _ callId _ => callId
  | AgentAction.confirmation_required _ callId _ _ => callId
  | _ => ""

/-- Whether a message has role `tool_result`. -/
def ChatMessage.isToolResultMsg : ChatMessage → Bool
  | ChatMessage.tool_result _ _ => true
  | _ => false

/-- All tool-call ids carried by `assistant` messages, in order. -/
def assistantCallIds : List ChatMessage → List String
  | [] => []
  | ChatMessage.assistant _ calls :: rest => calls.map (fun c => c.id) ++ assistantCallIds rest
  | _ :: rest => assistantCallIds rest

/-- The correlation invariant of spec §3, as a decidable check: walking the
messages in order, every `tool_result`'s correlation id must be among the
tool-call ids of the `assistant` messages seen so far (on top of the initial
`seen` set). -/
def wellCorrelated : List String → List ChatMessage → Bool
  | _, [] => true
  | seen, ChatMessage.assistant _ calls :: rest =>
      wellCorrelated (seen ++ calls.map (fun c => c.id)) rest
  | seen, ChatMessage.tool_result _ tid :: rest =>
      seen.contains tid && wellCorrelated seen rest
  | seen, _ :: rest => wellCorrelated seen rest

/-- The `tool_result` messages `processToolCalls` appends for a batch of tool
calls, one per call, in call order: the unknown-tool synthetic result, the
host-supplied result, or the skipped/denied synthetic result. -/
def toolResultsFor (registry : List ToolRegistryEntry) (config : AgentConfig)
    (host : Host) : List ToolCall → Nat → List ChatMessage
  | [], _ => []
  | call :: rest, yieldCount =>
    match getToolByCommand registry call.name with
    | none =>
        ChatMessage.tool_result (unknownToolContent config call.name) call.id ::
          toolResultsFor registry config host rest yieldCount
    | some entry =>
        (match host yieldCount (actionFor entry call) with
         | some tr => ChatMessage.tool_result tr.content tr.toolCallId
         | none => ChatMessage.tool_result skippedContent call.id) ::
          toolResultsFor registry config host rest (yieldCount + 1)

/-! ## Concrete fixtures used by witnesses and counterexamples -/

/-- A provider that always requests one `dead-code` tool call. -/
def constToolProvider : Provider :=
  fun _ => Except.ok ⟨"", none, some [⟨"call-1", "dead-code", []⟩]⟩

/-- A provider whose every request fails (models `sendRequest` rejecting). -/
def failProvider : Provider :=
  fun _ => Except.error "boom"

/-- A host that never supplies a tool result (denies everything). -/
def noneHost : Host :=
  fun _ _ => none

/-- A host that answers every pending call with a `ToolResult` whose
correlation id does NOT match the pending call. -/
def bogusHost : Host :=
  fun _ _ => some ⟨"bogus", "x"⟩

/-- A host that answers every pending call, echoing the pending call's id. -/
def echoHost : Host :=
  fun _ a => some ⟨a.callIdOf, "ok"⟩

/-! ## Structural lemmas about tool-call processing -/

/-- The action built for a known tool is always a host-facing tool action. -/
theorem actionFor_isToolAction (entry : ToolRegistryEntry) (call : ToolCall) :
    (actionFor entry call).isToolAction = true := by
  cases h : entry.invocation <;> simp [actionFor, h, AgentAction.isToolAction]

/-- The action built for a known tool carries that call's id. -/
theorem actionFor_callIdOf (entry : ToolRegistryEntry) (call : ToolCall) :
    (actionFor entry call).callIdOf = call.id := by
  cases h : entry.invocation <;> simp [actionFor, h, AgentAction.callIdOf]

/-- Processing a batch only appends to the message history, and what it
appends is exactly `toolResultsFor`. -/
theorem processToolCalls_messages (registry : List ToolRegistryEntry)
    (config : AgentConfig) (host : Host) :
    ∀ (calls : List ToolCall) (messages : List ChatMessage) (yieldCount : Nat),
    (processToolCalls registry config host calls messages yieldCount).messages
      = messages ++ toolResultsFor registry config host calls yieldCount := by
  intro calls
  induction calls with
  | nil => intro messages yieldCount; simp [processToolCalls, toolResultsFor]
  | cons call rest ih =>
    intro messages yieldCount
    cases hcmd : getToolByCommand registry call.name with
    | none =>
      simp only [processToolCalls, toolResultsFor, hcmd]
      rw [ih]
      simp
    | some entry =>
      cases hres : host yieldCount (actionFor entry call) with
      | none =>
        simp only [processToolCalls, toolResultsFor, hcmd, hres]
        rw [ih]
        simp
      | some tr =>
        simp only [processToolCalls, toolResultsFor, hcmd, hres]
        rw [ih]
        simp

/-- One `tool_result` message is appended per requested call. -/
theorem toolResultsFor_length (registry : List ToolRegistryEntry)
    (config : AgentConfig) (host : Host) :
    ∀ (calls : List ToolCall) (yieldCount : Nat),
    (toolResultsFor registry config host calls yieldCount).length = calls.length := by
  intro calls
  induction calls with
  | nil => intro yieldCount; simp [toolResultsFor]
  | cons call rest ih =>
    intro yieldCount
    cases hcmd : getToolByCommand registry call.name with
    | none => simp [toolResultsFor, hcmd, ih]
    | some entry =>
      cases hres : host yieldCount (actionFor entry call) with
      | none => simp [toolResultsFor, hcmd, hres, ih]
      | some tr => simp [toolResultsFor, hcmd, hres, ih]

/-- Everything appended for a tool-call batch has role `tool_result`. -/
theorem toolResultsFor_isToolResultMsg (registry : List ToolRegistryEntry)
    (config : AgentConfig) (host : Host) :
    ∀ (calls : List ToolCall) (yieldCount : Nat),
    ∀ m ∈ toolResultsFor registry config host calls yieldCount,
      m.isToolResultMsg = true := by
  intro calls
  induction calls with
  | nil => intro yieldCount m hm; simp [toolResultsFor] at hm
  | cons call rest ih =>
    intro yieldCount m hm
    cases hcmd : getToolByCommand registry call.name with
    | none =>
      simp only [toolResultsFor, hcmd, List.mem_cons] at hm
      rcases hm with hm | hm
      · simp [hm, ChatMessage.isToolResultMsg]
      · exact ih yieldCount m hm
    | some entry =>
      cases hres : host yieldCount (actionFor entry call) with
      | none =>
        simp only [toolResultsFor, hcmd, hres, List.mem_cons] at hm
        rcases hm with hm | hm
        · simp [hm, ChatMessage.isToolResultMsg]
        · exact ih (yieldCount + 1) m hm
      | some tr =>
        simp only [toolResultsFor, hcmd, hres, List.mem_cons] at hm
        rcases hm with hm | hm
        · simp [hm, ChatMessage.isToolResultMsg]
        · exact ih (yieldCount + 1) m hm

/-- Every action yielded during tool-call processing is a host-facing tool
action (never a terminal `response` or `error`). -/
theorem processToolCalls_actions_toolish (registry : List ToolRegistryEntry)
    (config : AgentConfig) (host : Host) :
    ∀ (calls : List ToolCall) (messages : List ChatMessage) (yieldCount : Nat),
    ∀ a ∈ (processToolCalls registry config host calls messages yieldCount).actions,
      a.isToolAction = true := by
  intro calls
  induction calls with
  | nil => intro messages yieldCount a ha; simp [processToolCalls] at ha
  | cons call rest ih =>
    intro messages yieldCount a ha
    cases hcmd : getToolByCommand registry call.name with
    | none =>
      simp only [processToolCalls, hcmd] at ha
      exact ih _ _ a ha
    | some entry =>
      simp only [processToolCalls, hcmd, List.mem_cons] at ha
      rcases ha with ha | ha
      · rw [ha]; exact actionFor_isToolAction entry call
      · exact ih _ _ a ha

/-! ## Structural lemmas about the loop -/

/-- The loop only ever appends to the message history. -/
theorem loopIter_appendOnly (provider : Provider) (registry : List ToolRegistryEntry)
    (config : AgentConfig) (host : Host) :
    ∀ (n : Nat) (messages : List ChatMessage) (a b yc req : Nat),
    ∃ s, (loopIter provider registry config host n messages a b yc req).finalMessages
      = messages ++ s := by
  intro n
  induction n with
  | zero =>
    intro messages a b yc req
    exact ⟨[], by simp [loopIter]⟩
  | succ k ih =>
    intro messages a b yc req
    simp only [loopIter]
    by_cases hb : ((a + b : Nat) : Int) ≥ config.maxTokenBudget - MIN_TOKEN_BUDGET_THRESHOLD
    · rw [if_pos hb]
      exact ⟨[], by simp⟩
    · rw [if_neg hb]
      cases hprov : provider messages with
      | error e => exact ⟨[], by simp⟩
      | ok r =>
        cases htc : r.toolCalls with
        | none => exact ⟨[], by simp [htc]⟩
        | some calls =>
          cases calls with
          | nil => exact ⟨[], by simp [htc]⟩
          | cons c cs =>
            simp only [htc]
            obtain ⟨s, hs⟩ := ih
              ((processToolCalls registry config host (c :: cs)
                (messages ++ [ChatMessage.assistant r.content (c :: cs)]) yc).messages)
              (a + (match r.usage with | some u => u.inputTokens | none => 0))
              (b + (match r.usage with | some u => u.outputTokens | none => 0))
              ((processToolCalls registry config host (c :: cs)
                (messages ++ [ChatMessage.assistant r.content (c :: cs)]) yc).yieldCount)
              (req + 1)
            refine ⟨ChatMessage.assistant r.content (c :: cs) ::
              (toolResultsFor registry config host (c :: cs) yc ++ s), ?_⟩
            rw [hs, processToolCalls_messages]
            simp

/-- Assistant-carried tool-call ids distribute over append. -/
theorem assistantCallIds_append :
    ∀ (a b : List ChatMessage),
    assistantCallIds (a ++ b) = assistantCallIds a ++ assistantCallIds b := by
  intro a b
  induction a with
  | nil => simp [assistantCallIds]
  | cons m rest ih =>
    cases m with
    | system c => simpa [assistantCallIds] using ih
    | user c => simpa [assistantCallIds] using ih
    | assistant c calls => simp [assistantCallIds, ih]
    | tool_result c tid => simpa [assistantCallIds] using ih

/-- Splitting the correlation check across an append: the suffix is checked
against the `seen` ids extended with the prefix's assistant tool-call ids. -/
theorem wellCorrelated_append (b : List ChatMessage) :
    ∀ (a : List ChatMessage) (seen : List String),
    wellCorrelated seen (a ++ b)
      = (wellCorrelated seen a && wellCorrelated (seen ++ assistantCallIds a) b) := by
  intro a
  induction a with
  | nil => intro seen; simp [wellCorrelated, assistantCallIds]
  | cons m rest ih =>
    intro seen
    cases m with
    | system c => simp [wellCorrelated, assistantCallIds, ih]
    | user c => simp [wellCorrelated, assistantCallIds, ih]
    | assistant c calls =>
      simp [wellCorrelated, assistantCallIds, ih, List.append_assoc]
    | tool_result c tid =>
      simp [wellCorrelated, assistantCallIds, ih, Bool.and_assoc]

/-- If the host echoes the pending call's id, every result appended for a
batch is correlated to one of the batch's own call ids (all assumed already
`seen`). -/
theorem toolResultsFor_wellCorrelated (registry : List ToolRegistryEntry)
    (config : AgentConfig) (host : Host)
    (Hhost : ∀ n a tr, host n a = some tr → tr.toolCallId = a.callIdOf) :
    ∀ (calls : List ToolCall) (yc : Nat) (seen : List String),
    (∀ c ∈ calls, c.id ∈ seen) →
    wellCorrelated seen (toolResultsFor registry config host calls yc) = true := by
  intro calls
  induction calls with
  | nil => intro yc seen _; simp [toolResultsFor, wellCorrelated]
  | cons call rest ih =>
    intro yc seen hmem
    have hhead : call.id ∈ seen := hmem call (List.mem_cons_self _ _)
    have htail : ∀ c ∈ rest, c.id ∈ seen :=
      fun c hc => hmem c (List.mem_cons_of_mem _ hc)
    cases hcmd : getToolByCommand registry call.name with
    | none =>
      simp only [toolResultsFor, hcmd, wellCorrelated]
      rw [ih yc seen htail]
      simp [List.contains, List.elem_eq_mem, hhead]
    | some entry =>
      cases hres : host yc (actionFor entry call) with
      | none =>
        simp only [toolResultsFor, hcmd, hres, wellCorrelated]
        rw [ih (yc + 1) seen htail]
        simp [List.contains, List.elem_eq_mem, hhead]
      | some tr =>
        have hid : tr.toolCallId = call.id := by
          rw [Hhost yc (actionFor entry call) tr hres, actionFor_callIdOf]
        simp only [toolResultsFor, hcmd, hres, wellCorrelated]
        rw [ih (yc + 1) seen htail]
        simp [List.contains, List.elem_eq_mem, hid, hhead]

/-- If the host echoes pending ids and the starting messages satisfy the
correlation invariant, so do the final messages of any loop continuation. -/
theorem loopIter_wellCorrelated (provider : Provider)
    (registry : List ToolRegistryEntry) (config : AgentConfig) (host : Host)
    (Hhost : ∀ n a tr, host n a = some tr → tr.toolCallId = a.callIdOf) :
    ∀ (n : Nat) (messages : List ChatMessage) (a b yc req : Nat),
    wellCorrelated [] messages = true →
    wellCorrelated []
      (loopIter provider registry config host n messages a b yc req).finalMessages = true := by
  intro n
  induction n with
  | zero =>
    intro messages a b yc req h
    simpa [loopIter] using h
  | succ k ih =>
    intro messages a b yc req h
    simp only [loopIter]
    by_cases hb : ((a + b : Nat) : Int) ≥ config.maxTokenBudget - MIN_TOKEN_BUDGET_THRESHOLD
    · rw [if_pos hb]; simpa using h
    · rw [if_neg hb]
      cases hprov : provider messages with
      | error e => simpa using h
      | ok r =>
        cases htc : r.toolCalls with
        | none => simpa [htc] using h
        | some calls =>
          cases calls with
          | nil => simpa [htc] using h
          | cons c cs =>
            simp only [htc]
            apply ih
            rw [processToolCalls_messages, wellCorrelated_append]
            have h1 : wellCorrelated []
                (messages ++ [ChatMessage.assistant r.content (c :: cs)]) = true := by
              rw [wellCorrelated_append]
              simp [h, wellCorrelated]
            rw [h1]
            have h2 : assistantCallIds
                (messages ++ [ChatMessage.assistant r.content (c :: cs)])
                = assistantCallIds messages ++ (c :: cs).map (fun x => x.id) := by
              rw [assistantCallIds_append]
              simp [assistantCallIds]
            rw [h2]
            rw [toolResultsFor_wellCorrelated registry config host Hhost (c :: cs) yc _ ?_]
            · simp
            · intro x hx
              simp only [List.nil_append, List.mem_append, List.mem_map]
              exact Or.inr ⟨x, hx, rfl⟩

/-- Under a provider that always requests at least one tool call, every loop
continuation ends in exactly one terminal error (turn-limit or budget), all
earlier actions are host-facing tool actions, and at most one request per
remaining turn is issued. -/
theorem loopIter_always_tools (provider : Provider)
    (registry : List ToolRegistryEntry) (config : AgentConfig) (host : Host)
    (H : ∀ msgs, ∃ r, provider msgs = Except.ok r ∧ ∃ c cs, r.toolCalls = some (c :: cs)) :
    ∀ (n : Nat) (messages : List ChatMessage) (a b yc req : Nat),
    (loopIter provider registry config host n messages a b yc req).requests ≤ req + n
    ∧ ∃ acts m,
        (loopIter provider registry config host n messages a b yc req).actions
            = acts ++ [AgentAction.error m]
        ∧ (∀ x ∈ acts, x.isToolAction = true)
        ∧ (m = turnLimitMessage config.maxTurns
           ∨ ∃ u : Nat, m = budgetMessage u config.maxTokenBudget) := by
  intro n
  induction n with
  | zero =>
    intro messages a b yc req
    refine ⟨by simp [loopIter], [], turnLimitMessage config.maxTurns, by simp [loopIter], ?_, Or.inl rfl⟩
    intro x hx
    simp at hx
  | succ k ih =>
    intro messages a b yc req
    simp only [loopIter]
    by_cases hb : ((a + b : Nat) : Int) ≥ config.maxTokenBudget - MIN_TOKEN_BUDGET_THRESHOLD
    · rw [if_pos hb]
      refine ⟨by simp, [], budgetMessage (a + b) config.maxTokenBudget, by simp, ?_, Or.inr ⟨a + b, rfl⟩⟩
      intro x hx
      simp at hx
    · rw [if_neg hb]
      obtain ⟨r, hok, c, cs, htc⟩ := H messages
      rw [hok]
      simp only [htc]
      set s := processToolCalls registry config host (c :: cs)
        (messages ++ [ChatMessage.assistant r.content (c :: cs)]) yc with hs
      obtain ⟨hreq, acts, m, hacts, hall, hm⟩ := ih s.messages
        (a + (match r.usage with | some u => u.inputTokens | none => 0))
        (b + (match r.usage with | some u => u.outputTokens | none => 0))
        s.yieldCount (req + 1)
      refine ⟨by simpa using Nat.le_trans hreq (by omega), s.actions ++ acts, m, ?_, ?_, hm⟩
      · simp [hacts, List.append_assoc]
      · intro x hx
        rcases List.mem_append.mp hx with hx | hx
        · exact processToolCalls_actions_toolish registry config host _ _ _ x hx
        · exact hall x hx


/-! ## Claim C1 — token-budget check -/

/-- C1: for every `AgentConfig` with `maxTokenBudget = B`, whenever the
running total of input plus output tokens reaches or exceeds `B - 100` at the
start of a loop iteration (turns remaining), the loop yields the single
terminal error describing budget exhaustion and returns with the request
count unchanged — no further model request is issued.  (`loopIter` is the
loop of `runAgentLoop`, which starts it at
`loopIter … config.maxTurns (initialMessages …) 0 0 0 0`.) -/
theorem budget_check_terminal (provider : Provider)
    (registry : List ToolRegistryEntry) (config : AgentConfig) (host : Host)
    (turnsRemaining : Nat) (messages : List ChatMessage)
    (totalInputTokens totalOutputTokens yieldCount requests : Nat)
    (hturns : 0 < turnsRemaining)
    (hbudget : config.maxTokenBudget - MIN_TOKEN_BUDGET_THRESHOLD
      ≤ ((totalInputTokens + totalOutputTokens : Nat) : Int)) :
    loopIter provider registry config host turnsRemaining messages
        totalInputTokens totalOutputTokens yieldCount requests
      = ⟨[AgentAction.error
            (budgetMessage (totalInputTokens + totalOutputTokens) config.maxTokenBudget)],
         messages, requests⟩ := by
  obtain ⟨n, rfl⟩ := Nat.exists_eq_succ_of_ne_zero (Nat.pos_iff_ne_zero.mp hturns)
  simp only [loopIter]
  rw [if_pos hbudget]

/-- Witness for C1 at a concrete input: budget 100, zero accrued tokens. -/
theorem budget_check_terminal_witness :
    loopIter failProvider TOOL_REGISTRY ⟨1, 100, "", []⟩ noneHost 1 [] 0 0 0 0
      = ⟨[AgentAction.error "Token budget exhausted (0 / 100 tokens used)."], [], 0⟩ := by
  rw [budget_check_terminal failProvider TOOL_REGISTRY ⟨1, 100, "", []⟩ noneHost 1 []
    0 0 0 0 (by decide) (by decide)]
  rfl

/-! ## Claim C2 — turn-limit exhaustion -/

/-- C2 counterexample: `maxTurns = 1 > 0`, and `constToolProvider` always
requests a tool call, yet with `maxTokenBudget = 50` the run's one terminal
error reports token-budget exhaustion, not the turn limit. -/
theorem maxturns_error_cex :
    (runAgentLoop constToolProvider TOOL_REGISTRY ⟨1, 50, "", []⟩ noneHost [] "hi").actions
        = [AgentAction.error "Token budget exhausted (0 / 50 tokens used)."]
    ∧ "Token budget exhausted (0 / 50 tokens used)." ≠ turnLimitMessage 1 := by
  exact ⟨rfl, by decide⟩

/-- C2 (amended): for `maxTurns = N > 0` and a provider whose responses always
contain at least one tool call, the run issues at most N model requests and
yields tool actions followed by exactly one terminal error — never a
`response` — where the error reports the turn limit or, if the token budget
trips first, budget exhaustion. -/
theorem maxturns_error_amended (provider : Provider)
    (registry : List ToolRegistryEntry) (config : AgentConfig) (host : Host)
    (history : List ChatMessage) (userMessage : String)
    (H : ∀ msgs, ∃ r, provider msgs = Except.ok r ∧ ∃ c cs, r.toolCalls = some (c :: cs))
    (hturns : 0 < config.maxTurns) :
    (runAgentLoop provider registry config host history userMessage).requests ≤ config.maxTurns
    ∧ ∃ acts m,
        (runAgentLoop provider registry config host history userMessage).actions
            = acts ++ [AgentAction.error m]
        ∧ (∀ x ∈ acts, x.isToolAction = true)
        ∧ (∀ x ∈ (runAgentLoop provider registry config host history userMessage).actions,
            x.isResponseAction = false)
        ∧ (m = turnLimitMessage config.maxTurns
           ∨ ∃ u : Nat, m = budgetMessage u config.maxTokenBudget) := by
  obtain ⟨hreq, acts, m, hacts, hall, hm⟩ :=
    loopIter_always_tools provider registry config host H config.maxTurns
      (initialMessages config history userMessage) 0 0 0 0
  have hrw : runAgentLoop provider registry config host history userMessage
      = loopIter provider registry config host config.maxTurns
          (initialMessages config history userMessage) 0 0 0 0 := rfl
  refine ⟨?_, acts, m, ?_, hall, ?_, hm⟩
  · rw [hrw]; simpa using hreq
  · rw [hrw]; exact hacts
  · intro x hx
    rw [hrw, hacts] at hx
    rcases List.mem_append.mp hx with hx | hx
    · have := hall x hx
      cases x <;> simp_all [AgentAction.isToolAction, AgentAction.isResponseAction]
    · simp at hx
      simp [hx, AgentAction.isResponseAction]

/-- Witness for C2 (amended) at a concrete input: two turns, huge budget,
always-tool-calling provider, denying host. -/
theorem maxturns_error_amended_witness :
    (runAgentLoop constToolProvider TOOL_REGISTRY ⟨2, 1000000, "", []⟩ noneHost [] "hi").requests ≤ 2
    ∧ ∃ acts m,
        (runAgentLoop constToolProvider TOOL_REGISTRY ⟨2, 1000000, "", []⟩ noneHost [] "hi").actions
            = acts ++ [AgentAction.error m]
        ∧ (∀ x ∈ acts, x.isToolAction = true)
        ∧ (∀ x ∈ (runAgentLoop constToolProvider TOOL_REGISTRY ⟨2, 1000000, "", []⟩ noneHost [] "hi").actions,
            x.isResponseAction = false)
        ∧ (m = turnLimitMessage 2 ∨ ∃ u : Nat, m = budgetMessage u 1000000) := by
  exact maxturns_error_amended constToolProvider TOOL_REGISTRY ⟨2, 1000000, "", []⟩ noneHost [] "hi"
    (fun msgs => ⟨⟨"", none, some [⟨"call-1", "dead-code", []⟩]⟩, rfl,
      ⟨"call-1", "dead-code", []⟩, [], rfl⟩)
    (by decide)

/-! ## Claim C3 — unknown tool recovery -/

/-- C3: a tool call whose name is not in the registry yields no host-facing
action and does not end the run: processing `call :: rest` equals processing
`rest` with one extra `tool_result` appended, whose content is the
unknown-tool error (starting with the literal "Unknown tool" and carrying the
joined list of available tool names) correlated to the call's id. -/
theorem unknown_tool_recovery (registry : List ToolRegistryEntry)
    (config : AgentConfig) (host : Host) (call : ToolCall) (rest : List ToolCall)
    (messages : List ChatMessage) (yieldCount : Nat)
    (hunknown : getToolByCommand registry call.name = none) :
    processToolCalls registry config host (call :: rest) messages yieldCount
      = processToolCalls registry config host rest
          (messages ++ [ChatMessage.tool_result (unknownToolContent config call.name) call.id])
          yieldCount
    ∧ unknownToolContent config call.name
      = "Unknown tool: \"" ++ call.name ++ "\". Available tools: " ++
          joinWith ", " (config.availableTools.map (fun t => t.name)) := by
  constructor
  · simp only [processToolCalls, hunknown]
  · rfl

/-- Witness for C3: the tool name "frobnicate" is not registered; processing
it yields no action and appends the unknown-tool result. -/
theorem unknown_tool_recovery_witness :
    getToolByCommand TOOL_REGISTRY "frobnicate" = none
    ∧ processToolCalls TOOL_REGISTRY ⟨1, 10000, "", [⟨"lint", "L"⟩]⟩ noneHost
        [⟨"c9", "frobnicate", []⟩] [] 0
      = ⟨[], [ChatMessage.tool_result "Unknown tool: \"frobnicate\". Available tools: lint" "c9"], 0⟩ := by
  refine ⟨by decide, ?_⟩
  rw [(unknown_tool_recovery TOOL_REGISTRY ⟨1, 10000, "", [⟨"lint", "L"⟩]⟩ noneHost
    ⟨"c9", "frobnicate", []⟩ [] [] 0 (by decide)).1]
  rfl

/-! ## Claim C4 — provider failure is caught -/

/-- C4: when the first model request fails (thrown/rejected `sendRequest`,
modelled as `Except.error`), and the loop actually issues it (positive turns,
budget not already exhausted), the run terminates with exactly one terminal
error carrying the failure message after that single request.  No exception
outcome exists: `runAgentLoop` is a total function into `RunResult`, the
embedding of the source's catch-all around `sendRequest`. -/
theorem provider_failure_terminal (provider : Provider)
    (registry : List ToolRegistryEntry) (config : AgentConfig) (host : Host)
    (history : List ChatMessage) (userMessage : String) (e : String)
    (hfail : provider (initialMessages config history userMessage) = Except.error e)
    (hturns : 0 < config.maxTurns)
    (hbudget : (0 : Int) < config.maxTokenBudget - MIN_TOKEN_BUDGET_THRESHOLD) :
    runAgentLoop provider registry config host history userMessage
      = ⟨[AgentAction.error ("Model request failed: " ++ e)],
         initialMessages config history userMessage, 1⟩ := by
  rw [runAgentLoop]
  obtain ⟨n, hn⟩ := Nat.exists_eq_succ_of_ne_zero (Nat.pos_iff_ne_zero.mp hturns)
  rw [hn]
  simp only [loopIter]
  rw [if_neg (by push_cast; omega), hfail]

/-- Witness for C4 at a concrete input: an always-failing provider. -/
theorem provider_failure_terminal_witness :
    runAgentLoop failProvider TOOL_REGISTRY ⟨1, 1000, "", []⟩ noneHost [] "hi"
      = ⟨[AgentAction.error "Model request failed: boom"],
         initialMessages ⟨1, 1000, "", []⟩ [] "hi", 1⟩ := by
  rw [provider_failure_terminal failProvider TOOL_REGISTRY ⟨1, 1000, "", []⟩ noneHost
    [] "hi" "boom" rfl (by decide) (by decide)]
  rfl


/-! ## Claim C5 — one tool result per call, in order -/

/-- C5: for every batch of tool calls in one model response, the loop appends
exactly one `tool_result` message per requested call, in call order, before
the next model request, whatever the host does; a known call the host answers
with nothing gets the synthetic skipped/denied result correlated to the
call's own id. -/
theorem tool_results_per_call (registry : List ToolRegistryEntry)
    (config : AgentConfig) (host : Host) :
    (∀ (calls : List ToolCall) (messages : List ChatMessage) (yieldCount : Nat),
      (processToolCalls registry config host calls messages yieldCount).messages
        = messages ++ toolResultsFor registry config host calls yieldCount)
    ∧ (∀ (calls : List ToolCall) (yieldCount : Nat),
        (toolResultsFor registry config host calls yieldCount).length = calls.length)
    ∧ (∀ (calls : List ToolCall) (yieldCount : Nat),
        ∀ m ∈ toolResultsFor registry config host calls yieldCount,
          m.isToolResultMsg = true)
    ∧ (∀ (call : ToolCall) (rest : List ToolCall) (yieldCount : Nat)
          (entry : ToolRegistryEntry),
        getToolByCommand registry call.name = some entry →
        host yieldCount (actionFor entry call) = none →
        toolResultsFor registry config host (call :: rest) yieldCount
          = ChatMessage.tool_result skippedContent call.id ::
              toolResultsFor registry config host rest (yieldCount + 1)) := by
  refine ⟨processToolCalls_messages registry config host,
    toolResultsFor_length registry config host,
    toolResultsFor_isToolResultMsg registry config host, ?_⟩
  intro call rest yieldCount entry hcmd hres
  simp only [toolResultsFor, hcmd, hres]

/-- Witness for C5 at a concrete input: a denied known call gets the
synthetic skipped result under its own id. -/
theorem tool_results_per_call_witness :
    toolResultsFor TOOL_REGISTRY ⟨1, 1000, "", []⟩ noneHost [⟨"c1", "lint", []⟩] 0
      = [ChatMessage.tool_result skippedContent "c1"] := by
  rw [(tool_results_per_call TOOL_REGISTRY ⟨1, 1000, "", []⟩ noneHost).2.2.2
    ⟨"c1", "lint", []⟩ [] 0
    ⟨"lint", "Lint & Best Practice",
      "Run linters and model-driven analysis for code smells and best practices.",
      Invocation.autonomous, "lint"⟩
    (by decide) rfl]
  rfl

/-! ## Claim C6 — tool-result correlation invariant -/

/-- C6 counterexample: a host that resumes with a `ToolResult` whose
`toolCallId` is "bogus" makes the loop append a `tool_result` correlated to
no assistant-carried tool-call id — the invariant does not hold for all host
behaviors. -/
theorem tool_result_correlation_cex :
    ChatMessage.tool_result "x" "bogus"
        ∈ (runAgentLoop constToolProvider TOOL_REGISTRY ⟨1, 1000, "", []⟩ bogusHost [] "hi").finalMessages
    ∧ "bogus" ∉ assistantCallIds
        (runAgentLoop constToolProvider TOOL_REGISTRY ⟨1, 1000, "", []⟩ bogusHost [] "hi").finalMessages
    ∧ wellCorrelated []
        (runAgentLoop constToolProvider TOOL_REGISTRY ⟨1, 1000, "", []⟩ bogusHost [] "hi").finalMessages
      = false := by
  refine ⟨by decide, by decide, by decide⟩

/-- C6 (amended): provided every host-supplied `ToolResult` echoes the
pending call's id, and the replayed history already satisfies the
correlation invariant, every `tool_result` in the final message sequence is
correlated to a previously appended assistant tool-call id; and the loop only
appends — the initial system/history/user sequence is a prefix of the final
one. -/
theorem tool_result_correlation_invariant (provider : Provider)
    (registry : List ToolRegistryEntry) (config : AgentConfig) (host : Host)
    (history : List ChatMessage) (userMessage : String)
    (Hhost : ∀ n a tr, host n a = some tr → tr.toolCallId = a.callIdOf)
    (Hhist : wellCorrelated [] (initialMessages config history userMessage) = true) :
    wellCorrelated []
      (runAgentLoop provider registry config host history userMessage).finalMessages = true
    ∧ ∃ s, (runAgentLoop provider registry config host history userMessage).finalMessages
        = initialMessages config history userMessage ++ s := by
  constructor
  · exact loopIter_wellCorrelated provider registry config host Hhost
      config.maxTurns (initialMessages config history userMessage) 0 0 0 0 Hhist
  · exact loopIter_appendOnly provider registry config host
      config.maxTurns (initialMessages config history userMessage) 0 0 0 0

/-- Witness for C6 (amended) at a concrete input: an echoing host keeps the
invariant. -/
theorem tool_result_correlation_invariant_witness :
    wellCorrelated []
      (runAgentLoop constToolProvider TOOL_REGISTRY ⟨1, 1000, "", []⟩ echoHost [] "hi").finalMessages
      = true
    ∧ ∃ s, (runAgentLoop constToolProvider TOOL_REGISTRY ⟨1, 1000, "", []⟩ echoHost [] "hi").finalMessages
        = initialMessages ⟨1, 1000, "", []⟩ [] "hi" ++ s := by
  exact tool_result_correlation_invariant constToolProvider TOOL_REGISTRY
    ⟨1, 1000, "", []⟩ echoHost [] "hi"
    (fun n a tr h => by cases h; rfl)
    (by decide)

/-! ## Claim C7 — message-sequence construction -/

/-- C7 counterexample: with a non-empty custom `systemPrompt` the system
message's content is NOT the custom prompt alone — the builder still appends
the constraints block (and tool list). -/
theorem system_prompt_cex :
    (initialMessages ⟨3, 10000, "CUSTOM", []⟩ [] "hi").head?
        = some (ChatMessage.system (buildSystemPrompt ⟨3, 10000, "CUSTOM", []⟩))
    ∧ buildSystemPrompt ⟨3, 10000, "CUSTOM", []⟩ ≠ "CUSTOM" := by
  exact ⟨rfl, by decide⟩

/-- C7 (amended): the run's message sequence starts with one system message
whose content is `buildSystemPrompt config`, then the history in order, then
the new user message; the prompt's parts start with the custom prompt when
non-empty and the built-in persona otherwise, and in both cases contain each
available tool's description line and the fixed constraints block. -/
theorem system_prompt_amended (provider : Provider)
    (registry : List ToolRegistryEntry) (config : AgentConfig) (host : Host)
    (history : List ChatMessage) (userMessage : String) :
    (∃ s, (runAgentLoop provider registry config host history userMessage).finalMessages
        = ChatMessage.system (buildSystemPrompt config)
            :: (history ++ ChatMessage.user userMessage :: s))
    ∧ (config.systemPrompt ≠ "" →
        (buildSystemPromptParts config).head? = some config.systemPrompt)
    ∧ (config.systemPrompt = "" →
        (buildSystemPromptParts config).head? = some BASE_SYSTEM_PROMPT)
    ∧ (∀ t ∈ config.availableTools,
        ("- " ++ t.name ++ ": " ++ t.description) ∈ buildSystemPromptParts config)
    ∧ (∀ c ∈ constraintLines, c ∈ buildSystemPromptParts config)
    ∧ buildSystemPrompt config = joinWith "\n" (buildSystemPromptParts config) := by
  refine ⟨?_, ?_, ?_, ?_, ?_, rfl⟩
  · obtain ⟨s, hs⟩ := loopIter_appendOnly provider registry config host
      config.maxTurns (initialMessages config history userMessage) 0 0 0 0
    refine ⟨s, ?_⟩
    rw [show (runAgentLoop provider registry config host history userMessage).finalMessages
        = (loopIter provider registry config host config.maxTurns
            (initialMessages config history userMessage) 0 0 0 0).finalMessages from rfl, hs]
    simp [initialMessages]
  · intro h
    simp [buildSystemPromptParts, h]
  · intro h
    simp [buildSystemPromptParts, h]
  · intro t ht
    have hlen : config.availableTools.length > 0 :=
      List.length_pos.mpr (List.ne_nil_of_mem ht)
    unfold buildSystemPromptParts
    rw [if_pos hlen]
    refine List.mem_append.mpr (Or.inl ?_)
    refine List.mem_append.mpr (Or.inr ?_)
    refine List.mem_cons_of_mem _ ?_
    refine List.mem_append.mpr (Or.inl ?_)
    exact List.mem_map_of_mem _ ht
  · intro c hc
    unfold buildSystemPromptParts
    exact List.mem_append.mpr (Or.inr hc)

/-- Witness for C7 (amended) at a concrete input: custom prompt "CUSTOM" with
one available tool. -/
theorem system_prompt_amended_witness :
    (buildSystemPromptParts ⟨1, 1000, "CUSTOM", [⟨"lint", "L"⟩]⟩).head? = some "CUSTOM"
    ∧ ("- lint: L") ∈ buildSystemPromptParts ⟨1, 1000, "CUSTOM", [⟨"lint", "L"⟩]⟩
    ∧ ∃ s, (runAgentLoop failProvider TOOL_REGISTRY ⟨1, 1000, "CUSTOM", [⟨"lint", "L"⟩]⟩
          noneHost [] "hi").finalMessages
        = ChatMessage.system (buildSystemPrompt ⟨1, 1000, "CUSTOM", [⟨"lint", "L"⟩]⟩)
            :: ([] ++ ChatMessage.user "hi" :: s) := by
  obtain ⟨h1, h2, h3, h4, h5, h6⟩ := system_prompt_amended failProvider TOOL_REGISTRY
    ⟨1, 1000, "CUSTOM", [⟨"lint", "L"⟩]⟩ noneHost [] "hi"
  exact ⟨h2 (by decide), h4 ⟨"lint", "L"⟩ (by decide), h1⟩


/-! ## Claim C8 — dead-code model review is a downgrade-only frame -/

/-- C8: the dead-code model-review pass never removes a static finding: it
returns no extra findings, preserves the list's length, and maps each finding
to itself unless its `filePath:startLine` key appears in a DISMISS line, in
which case only its severity (to `hint`) and description (note appended)
change; a failed review leaves the static findings untouched. -/
theorem dead_code_review_frame (response : Except String String)
    (staticFindings : List Finding) :
    (deadCodeModelReview response staticFindings).2 = []
    ∧ (deadCodeModelReview response staticFindings).1.length = staticFindings.length
    ∧ (∀ e, response = Except.error e →
        (deadCodeModelReview response staticFindings).1 = staticFindings)
    ∧ (∀ content, response = Except.ok content →
        (deadCodeModelReview response staticFindings).1
          = staticFindings.map (fun f =>
              if (parseDismissals content).contains (findingKey f) then
                { f with severity := "hint",
                         description := f.description ++ dismissNote }
              else f)) := by
  cases response with
  | error e =>
    refine ⟨rfl, ?_, ?_, ?_⟩
    · simp [deadCodeModelReview]
    · intro _ _
      rfl
    · intro c hc
      exact nomatch hc
  | ok content =>
    refine ⟨rfl, ?_, ?_, ?_⟩
    · simp [deadCodeModelReview]
    · intro e he
      exact nomatch he
    · intro c hc
      cases hc
      rfl

/-- Witness for C8 at a concrete input: one finding, dismissed by the model
response, is downgraded in place and nothing is added or removed. -/
theorem dead_code_review_frame_witness :
    (deadCodeModelReview (Except.ok "DISMISS|f.ts:3|entry point")
        [mkUnusedFinding "f.ts" ⟨"foo", 3, "function"⟩]).1
      = [{ mkUnusedFinding "f.ts" ⟨"foo", 3, "function"⟩ with
            severity := "hint",
            description := (mkUnusedFinding "f.ts" ⟨"foo", 3, "function"⟩).description
              ++ dismissNote }]
    ∧ (deadCodeModelReview (Except.ok "DISMISS|f.ts:3|entry point")
        [mkUnusedFinding "f.ts" ⟨"foo", 3, "function"⟩]).2 = [] := by
  have h := dead_code_review_frame (Except.ok "DISMISS|f.ts:3|entry point")
    [mkUnusedFinding "f.ts" ⟨"foo", 3, "function"⟩]
  refine ⟨?_, h.1⟩
  rw [h.2.2.2 "DISMISS|f.ts:3|entry point" rfl]
  decide

/-! ## Claim C9 — dead-code static pass characterization -/

/-- C9: in the static pass, given the per-file extraction results and the
scanned file contents, a finding is produced for an extracted symbol exactly
when the symbol is not a default export and its name occurs at most once as a
whole word in the newline-joined corpus (in extraction order): the output
equals the filter of the extracted exports by that condition, mapped to the
unused-export finding. -/
theorem dead_code_static_characterization
    (allExports : List (String × List ExportInfo)) (fileContents : List String) :
    deadCodeStaticFindings allExports fileContents
      = allExports.flatMap (fun p =>
          (p.2.filter (fun e =>
            !(e.kind == "default")
              && decide (countWordOccurrences e.name (joinWith "\n" fileContents) ≤ 1))).map
            (mkUnusedFinding p.1)) := by
  unfold deadCodeStaticFindings
  have inner : ∀ (fp : String) (l : List ExportInfo),
      l.filterMap (fun e =>
        if e.kind == "default" then none
        else if countWordOccurrences e.name (joinWith "\n" fileContents) ≤ 1 then
          some (mkUnusedFinding fp e)
        else none)
        = (l.filter (fun e =>
            !(e.kind == "default")
              && decide (countWordOccurrences e.name (joinWith "\n" fileContents) ≤ 1))).map
            (mkUnusedFinding fp) := by
    intro fp l
    induction l with
    | nil => rfl
    | cons e rest ih =>
      rw [List.filterMap_cons, List.filter_cons, ih]
      by_cases h1 : e.kind = "default"
      · simp [h1]
      · by_cases h2 : countWordOccurrences e.name (joinWith "\n" fileContents) ≤ 1
        · simp [h1, h2]
        · simp [h1, h2]
  induction allExports with
  | nil => rfl
  | cons p rest ih =>
    simp only [List.flatMap_cons]
    rw [inner p.1 p.2, ih]

/-! ## Claim C10 — protocol parsers are total and skip malformed input -/

/-- The length of a `filterMap` equals the number of elements the function
succeeds on. -/
theorem length_filterMap_eq_length_filter {α β : Type} (f : α → Option β) :
    ∀ l : List α, (l.filterMap f).length = (l.filter (fun x => (f x).isSome)).length := by
  intro l
  induction l with
  | nil => rfl
  | cons x xs ih =>
    cases hx : f x with
    | none => simp [List.filterMap_cons, List.filter_cons, hx, ih]
    | some b => simp [List.filterMap_cons, List.filter_cons, hx, ih]

/-- If no `=======` line occurs in the scanned suffix, the separator flag
stays down. -/
theorem hunkScan_no_separator :
    ∀ (rest : List String) (i : Nat) (st : HunkScanState),
    st.separatorFound = false →
    (∀ l ∈ rest, jsStartsWith l "=======" = false) →
    (hunkScan rest i st).separatorFound = false := by
  intro rest
  induction rest with
  | nil => intro i st h _; simpa [hunkScan] using h
  | cons line rs ih =>
    intro i st h hall
    have hline : jsStartsWith line "=======" = false := hall line (List.mem_cons_self _ _)
    simp only [hunkScan]
    rw [if_neg (by simp [hline]), if_neg (by simp [h]), if_neg (by simp [h])]
    exact ih (i + 1) _ h (fun l hl => hall l (List.mem_cons_of_mem _ hl))

/-- C10: the model-output protocol parsers are total functions that skip
malformed input: the lint parser turns exactly the protocol-matching lines
into findings (one well-formed ISSUE line plus one garbage line yields
exactly that one finding); the comments parser produces a finding only for a
line with at least four pipe-separated fields, a REMOVE/REWRITE action and
two parseable line numbers; and a conflict block with no `=======` separator
parses to nothing and is skipped over by the scan. -/
theorem protocol_parsers_skip_malformed :
    parseLintModelOutput "ISSUE|a.ts|12|desc\nthis is garbage"
        = [{ title := "Code smell detected", description := "desc",
             location := { filePath := "a.ts", startLine := 12, endLine := 12,
                           startColumn := none },
             severity := "warning", suggestedFix := none,
             metadata := [("source", "model")] }]
    ∧ (∀ content, (parseLintModelOutput content).length
        = ((jsSplit '\n' content).filter (fun l => (lintLineFinding l).isSome)).length)
    ∧ (∀ filePath line f, commentActionFinding filePath line = some f →
        (jsSplit '|' line).length ≥ 4
        ∧ (jsToUpper (jsTrim ((jsSplit '|' line).getD 0 "")) = "REMOVE"
            ∨ jsToUpper (jsTrim ((jsSplit '|' line).getD 0 "")) = "REWRITE")
        ∧ (jsParseInt (jsTrim ((jsSplit '|' line).getD 1 ""))).isSome = true
        ∧ (jsParseInt (jsTrim ((jsSplit '|' line).getD 2 ""))).isSome = true)
    ∧ (∀ (lines : List String) (i : Nat),
        (∀ l ∈ lines.drop (i + 1), jsStartsWith l "=======" = false) →
        parseOneHunk lines i = none)
    ∧ (∀ (lines : List String) (i : Nat), i < lines.length →
        parseOneHunk lines i = none →
        conflictScan lines i = conflictScan lines (i + 1)) := by
  refine ⟨by decide, ?_, ?_, ?_, ?_⟩
  · intro content
    exact length_filterMap_eq_length_filter lintLineFinding (jsSplit '\n' content)
  · intro filePath line f h
    simp only [commentActionFinding] at h
    split at h
    · cases h
    next hlen =>
      refine ⟨by omega, ?_⟩
      split at h
      next a b c d rps hp =>
        split at h
        · cases h
        next hact =>
          have hor : jsToUpper (jsTrim a) = "REMOVE" ∨ jsToUpper (jsTrim a) = "REWRITE" := by
            by_cases h1 : jsToUpper (jsTrim a) = "REMOVE"
            · exact Or.inl h1
            · by_cases h2 : jsToUpper (jsTrim a) = "REWRITE"
              · exact Or.inr h2
              · exact absurd ⟨h1, h2⟩ hact
          split at h
          next s e hs he =>
            rw [hp]
            exact ⟨by simpa using hor, by simp [hs], by simp [he]⟩
          next => cases h
      next hne =>
        exact nomatch h
  · intro lines i h
    have hsep := hunkScan_no_separator (lines.drop (i + 1)) (i + 1)
      ⟨false, [], [], i + 1, ""⟩ rfl h
    simp only [parseOneHunk]
    rw [if_neg (by simp [hsep])]
  · intro lines i hi hnone
    rw [conflictScan]
    rw [dif_pos hi]
    by_cases hstart : jsStartsWith (lines.getD i "") "<<<<<<<"
    · rw [if_pos hstart]
      split
      next hunk h2 => rw [hnone] at h2; cases h2
      next h2 => rfl
    · rw [if_neg hstart]

/-- Witness for C10 at a concrete input: a `<<<<<<<` block with no
`=======` line parses to no hunk. -/
theorem protocol_parsers_skip_malformed_witness :
    parseOneHunk ["<<<<<<< a", "body"] 0 = none := by
  exact protocol_parsers_skip_malformed.2.2.2.1 ["<<<<<<< a", "body"] 0 (by decide)


end Meridian
